import Mathlib

/-!
# String and integer utilities of `example/`

Shallow embedding of `example/src/string_utils.cpp` (`reverse`, `concat`) and of the
test programs under `example/tests/` that call them.

A `std::string` is a finite sequence of `char` objects, one byte each; it is modelled as a
list of bytes.  `std::reverse` and `operator+` come from the C++ standard library and are
modelled by what the standard prescribes for them: `std::reverse(first, last)` applies
`iter_swap(first + i, (last - i) - 1)` for every `0 ≤ i < (last - first) / 2`, and `a + b`
is a copy of `a` with the characters of `b` appended.

The math module (`add`, `multiply`) has no source file here; it is modelled from the
specification.  The reading of bytes as UTF-8 is the reference against which the
byte-level `reverse` is compared.
-/

namespace CachedCtest

/-- One `char` of a `std::string`: a byte. -/
abbrev Byte := Fin 256

/-- A `std::string` value: its bytes in order. -/
abbrev CppString := List Byte

/-- The `std::string` built from a string literal of ASCII characters, as the test
programs do (`"hello"`): one byte per character. -/
def ascii (lit : String) : CppString :=
  lit.toList.map (fun c => Fin.ofNat c.toNat)

/-- The `std::iter_swap(a, b)` of two positions of the same string: the characters at
the positions `i` and `j` are exchanged, everything else is untouched. -/
def iter_swap (s : CppString) (i j : Nat) : CppString :=
  match s[i]?, s[j]? with
  | some x, some y => (s.set i y).set j x
  | _, _ => s

/-- The `std::reverse(first, last)` on the range of positions `[first, last)` of `s`:
for each `i < (last - first) / 2` it swaps positions `first + i` and `(last - i) - 1`,
in increasing order of `i`. -/
def std_reverse (s : CppString) (first last : Nat) : CppString :=
  (List.range ((last - first) / 2)).foldl
    (fun r i => iter_swap r (first + i) ((last - i) - 1)) s

/-- The `reverse` of `string_utils.cpp`:
`std::string result = str; std::reverse(result.begin(), result.end()); return result;` -/
def reverse (str : CppString) : CppString :=
  let result := str
  std_reverse result 0 result.length

/-- The `operator+` on two `std::string` values: a copy of the left operand with the
right operand appended. -/
def string_plus (lhs rhs : CppString) : CppString :=
  lhs ++ rhs

/-- The `concat` of `string_utils.cpp`: `return a + b;` -/
def concat (a b : CppString) : CppString :=
  string_plus a b

/-- The `assert(cond)` of `<cassert>`: the program goes on when `cond` holds and is
aborted otherwise (`none`). -/
def assert (cond : Bool) : Option Unit :=
  if cond then some () else none

/-- The string part of `main` in `tests/test_integration.cpp`: the statements from
`std::string hello = "hello";` to `assert(final_str == "ollehworld");`.  The result is
`some ()` when the program gets past all three assertions. -/
def test_integration_strings : Option Unit := do
  let hello := ascii "hello"
  let world := ascii "world"
  let combined := concat hello world
  let reversed := reverse combined
  assert (combined == ascii "helloworld")
  assert (reversed == ascii "dlrowolleh")
  let rev_hello := reverse hello
  let final_str := concat rev_hello world
  assert (final_str == ascii "ollehworld")

/-- A palindrome in the words of the specification: the character at `i` equals the
character at `n - 1 - i` for every `i < n`, where `n` is the length. -/
def isPalindrome (s : CppString) : Prop :=
  ∀ i (h : i < s.length), s.get ⟨i, h⟩ = s.get ⟨s.length - 1 - i, by omega⟩

instance (s : CppString) : Decidable (isPalindrome s) :=
  inferInstanceAs (Decidable
    (∀ i (h : i < s.length), s.get ⟨i, h⟩ = s.get ⟨s.length - 1 - i, by omega⟩))

/-- The two behaviours on overflow that the specification leaves open for the
fixed-width integer operations. -/
inductive OverflowPolicy where
  | wraparound
  | trap
  deriving DecidableEq, Repr

/-- The least value of the `int` the test programs store the results in (32 bits). -/
def INT_MIN : Int := -2147483648

/-- The greatest value of that `int`. -/
def INT_MAX : Int := 2147483647

/-- Whether a mathematical integer is a value of `int`. -/
def inIntRange (x : Int) : Bool :=
  decide (INT_MIN ≤ x) && decide (x ≤ INT_MAX)

/-- Two's-complement wraparound of a mathematical integer to `int`. -/
def wrapInt (x : Int) : Int :=
  (x + 2147483648) % 4294967296 - 2147483648

/-- Modelled from the spec: `add` of the math module, whose source (`math_utils.cpp`) is
not among the files; only its tests and callers are.  The specification says that it
returns the arithmetic sum of two fixed-width signed integers, and that on overflow it
inherits the wraparound or the trap of the host language: `none` is the trap. -/
def add (policy : OverflowPolicy) (a b : Int) : Option Int :=
  if inIntRange (a + b) then some (a + b)
  else
    match policy with
    | .wraparound => some (wrapInt (a + b))
    | .trap => none

/-- Modelled from the spec: `multiply` of the math module, whose source
(`math_utils.cpp`) is not among the files; only its tests and callers are.  The
specification says that it returns the arithmetic product of two fixed-width signed
integers, with the same overflow caveat as `add`: `none` is the trap. -/
def multiply (policy : OverflowPolicy) (a b : Int) : Option Int :=
  if inIntRange (a * b) then some (a * b)
  else
    match policy with
    | .wraparound => some (wrapInt (a * b))
    | .trap => none

/-- Whether a byte is a UTF-8 continuation byte (`10xxxxxx`). -/
def isContinuation (b : Byte) : Bool :=
  decide (128 ≤ b.val) && decide (b.val < 192)

/-- Whether `c` may end a UTF-8 sequence whose length admits the code points from `lo`
on: not an overlong form, not a surrogate, not above U+10FFFF. -/
def isScalarFrom (lo c : Nat) : Bool :=
  decide (lo ≤ c) && decide (c ≤ 1114111) && !(decide (55296 ≤ c) && decide (c ≤ 57343))

/-- Reading of a byte sequence as UTF-8, byte by byte.  `need` is the number of
continuation bytes still missing from the sequence in progress, `acc` the bits gathered
so far and `lo` the least code point the sequence may encode.  The result is the list of
code points, or `none` when the bytes are not valid UTF-8. -/
def utf8DecodeFrom : Nat → Nat → Nat → List Byte → Option (List Nat)
  | 0, _, _, [] => some []
  | _ + 1, _, _, [] => none
  | 0, _, _, b :: rest =>
    if b.val < 128 then (utf8DecodeFrom 0 0 0 rest).map (fun cps => b.val :: cps)
    else if b.val < 192 then none
    else if b.val < 224 then utf8DecodeFrom 1 (b.val - 192) 128 rest
    else if b.val < 240 then utf8DecodeFrom 2 (b.val - 224) 2048 rest
    else if b.val < 248 then utf8DecodeFrom 3 (b.val - 240) 65536 rest
    else none
  | n + 1, acc, lo, b :: rest =>
    if isContinuation b then
      if n = 0 then
        if isScalarFrom lo (acc * 64 + (b.val - 128)) then
          (utf8DecodeFrom 0 0 0 rest).map (fun cps => (acc * 64 + (b.val - 128)) :: cps)
        else none
      else utf8DecodeFrom n (acc * 64 + (b.val - 128)) lo rest
    else none

/-- The code points of a string whose bytes are read as UTF-8; `none` when they are not
valid UTF-8. -/
def utf8Decode (s : CppString) : Option (List Nat) :=
  utf8DecodeFrom 0 0 0 s

/-- The UTF-8 encoding of one code point. -/
def utf8EncodeCodePoint (c : Nat) : List Byte :=
  if c < 128 then [Fin.ofNat c]
  else if c < 2048 then [Fin.ofNat (192 + c / 64), Fin.ofNat (128 + c % 64)]
  else if c < 65536 then
    [Fin.ofNat (224 + c / 4096), Fin.ofNat (128 + c / 64 % 64), Fin.ofNat (128 + c % 64)]
  else
    [Fin.ofNat (240 + c / 262144 % 8), Fin.ofNat (128 + c / 4096 % 64),
     Fin.ofNat (128 + c / 64 % 64), Fin.ofNat (128 + c % 64)]

/-- The UTF-8 encoding of a sequence of code points. -/
def utf8Encode : List Nat → CppString
  | [] => []
  | c :: cps => utf8EncodeCodePoint c ++ utf8Encode cps

/-- Reversal by code point, the reading the specification asks of an implementer who
targets Unicode text: the bytes are read as UTF-8, the code points are put in reverse
order and encoded again; `none` when the bytes are not valid UTF-8. -/
def reverseByCodePoint (s : CppString) : Option CppString :=
  (utf8Decode s).map (fun cps => utf8Encode cps.reverse)

/-- Whether every byte of the string is below 128: single-byte ASCII characters only. -/
def isAscii (s : CppString) : Prop :=
  ∀ b ∈ s, b.val < 128

instance (s : CppString) : Decidable (isAscii s) :=
  inferInstanceAs (Decidable (∀ b ∈ s, b.val < 128))

/-- The first `k` swaps of `std_reverse` over the whole string `s` (the state of the loop
after `k` iterations); used to state the loop invariant. -/
def swapsUpTo (s : CppString) (k : Nat) : CppString :=
  (List.range k).foldl (fun r i => iter_swap r (0 + i) ((s.length - i) - 1)) s

/-! ## Lemmas on the swap loop -/

/-- Swapping two valid positions keeps the length. -/
theorem length_iter_swap (s : CppString) (i j : Nat) :
    (iter_swap s i j).length = s.length := by
  unfold iter_swap
  split <;> simp

theorem swapsUpTo_succ (s : CppString) (k : Nat) :
    swapsUpTo s (k + 1) = iter_swap (swapsUpTo s k) (0 + k) ((s.length - k) - 1) := by
  simp [swapsUpTo, List.range_succ, List.foldl_append]

theorem length_swapsUpTo (s : CppString) (k : Nat) :
    (swapsUpTo s k).length = s.length := by
  induction k with
  | zero => simp [swapsUpTo]
  | succ k ih => rw [swapsUpTo_succ, length_iter_swap, ih]

/-- Loop invariant of `std_reverse`: after `k` swaps the outer `k` positions at both ends
hold the mirrored characters and the positions in between are unchanged. -/
theorem getElem?_swapsUpTo (s : CppString) (k : Nat) (hk : 2 * k ≤ s.length)
    (j : Nat) (hj : j < s.length) :
    (swapsUpTo s k)[j]? =
      if j < k ∨ s.length - k ≤ j then s[s.length - 1 - j]? else s[j]? := by
  induction k generalizing j with
  | zero =>
    have c : ¬ (j < 0 ∨ s.length - 0 ≤ j) := by omega
    rw [if_neg c]
    simp [swapsUpTo]
  | succ k ih =>
    have hk2 : 2 * k ≤ s.length := by omega
    have hlen := length_swapsUpTo s k
    have h1 := ih hk2 k (by omega)
    have h2 := ih hk2 (s.length - k - 1) (by omega)
    have c1 : ¬ (k < k ∨ s.length - k ≤ k) := by omega
    have c2 : ¬ (s.length - k - 1 < k ∨ s.length - k ≤ s.length - k - 1) := by omega
    rw [if_neg c1] at h1
    rw [if_neg c2] at h2
    have hx : s[k]? = some (s.get ⟨k, by omega⟩) := by simp
    have hy : s[s.length - k - 1]? = some (s.get ⟨s.length - k - 1, by omega⟩) := by simp
    rw [hx] at h1
    rw [hy] at h2
    rw [swapsUpTo_succ]
    unfold iter_swap
    simp only [Nat.zero_add, h1, h2]
    rw [List.getElem?_set, List.getElem?_set]
    simp only [List.length_set, hlen]
    have ihj := ih hk2 j hj
    by_cases e1 : s.length - k - 1 = j
    · have e3 : s.length - 1 - j = k := by omega
      have c : j < k + 1 ∨ s.length - (k + 1) ≤ j := by omega
      rw [if_pos e1, if_pos (by omega), if_pos c, e3, hx]
    · rw [if_neg e1]
      by_cases e2 : k = j
      · have e3 : s.length - 1 - j = s.length - k - 1 := by omega
        have c : j < k + 1 ∨ s.length - (k + 1) ≤ j := by omega
        rw [if_pos e2, if_pos (by omega), if_pos c, e3, hy]
      · rw [if_neg e2, ihj]
        by_cases c : j < k ∨ s.length - k ≤ j
        · rw [if_pos c, if_pos (by omega)]
        · rw [if_neg c, if_neg (by omega)]

/-- The swap loop of `reverse` yields the mirrored sequence. -/
theorem reverse_eq_list_reverse (s : CppString) : reverse s = s.reverse := by
  have hdef : reverse s = swapsUpTo s (s.length / 2) := by
    simp [reverse, std_reverse, swapsUpTo]
  rw [hdef]
  apply List.ext_getElem?
  intro j
  by_cases hj : j < s.length
  · rw [getElem?_swapsUpTo s _ (by omega) j hj, List.getElem?_reverse hj]
    by_cases c : j < s.length / 2 ∨ s.length - s.length / 2 ≤ j
    · rw [if_pos c]
    · rw [if_neg c]
      have : s.length - 1 - j = j := by omega
      rw [this]
  · have h1 : (swapsUpTo s (s.length / 2)).length ≤ j := by
      rw [length_swapsUpTo]; omega
    have h2 : s.reverse.length ≤ j := by simp; omega
    rw [List.getElem?_eq_none h1, List.getElem?_eq_none h2]

/-- The result of `reverse` is as long as its argument. -/
theorem length_reverse_eq (s : CppString) : (reverse s).length = s.length := by
  rw [reverse_eq_list_reverse, List.length_reverse]

/-- Position `i` of `reverse s` holds the character at the mirrored position of `s`. -/
theorem getElem?_reverse_eq (s : CppString) (i : Nat) (h : i < s.length) :
    (reverse s)[i]? = some (s.get ⟨s.length - 1 - i, by omega⟩) := by
  rw [reverse_eq_list_reverse, List.getElem?_reverse h]
  simp

/-! ## Lemmas on the UTF-8 reading of ASCII strings -/

/-- A string of ASCII bytes reads as UTF-8, one code point per byte. -/
theorem utf8Decode_of_isAscii (s : CppString) (h : isAscii s) :
    utf8Decode s = some (s.map (fun b => b.val)) := by
  unfold utf8Decode
  induction s with
  | nil => rfl
  | cons b rest ih =>
    have hb : b.val < 128 := h b (List.mem_cons_self b rest)
    have hrest : isAscii rest := fun c hc => h c (List.mem_cons_of_mem b hc)
    simp only [utf8DecodeFrom, if_pos hb, ih hrest, Option.map_some', List.map_cons]

/-- Encoding the code points of a string of ASCII bytes gives the bytes back. -/
theorem utf8Encode_of_isAscii (s : CppString) (h : isAscii s) :
    utf8Encode (s.map (fun b => b.val)) = s := by
  induction s with
  | nil => rfl
  | cons b rest ih =>
    have hb : b.val < 128 := h b (List.mem_cons_self b rest)
    have hrest : isAscii rest := fun c hc => h c (List.mem_cons_of_mem b hc)
    have hof : (Fin.ofNat b.val : Byte) = b := by
      apply Fin.ext
      simp only [Fin.ofNat]
      omega
    simp only [List.map_cons, utf8Encode, utf8EncodeCodePoint, if_pos hb, hof, ih hrest,
      List.singleton_append]

/-- The mirrored sequence of ASCII bytes is made of ASCII bytes. -/
theorem isAscii_list_reverse (s : CppString) (h : isAscii s) : isAscii s.reverse :=
  fun b hb => h b (List.mem_reverse.mp hb)

/-! ## Claims -/

/-- C1: for every string `t`, `reverse(reverse(t))` equals `t`. -/
theorem reverse_reverse (t : CppString) : reverse (reverse t) = t := by
  rw [reverse_eq_list_reverse, reverse_eq_list_reverse, List.reverse_reverse]

/-- C2: for a string `s` of length `n`, `reverse(s)` has length `n` and its character at
every position `i < n` is the character of `s` at position `n - 1 - i`; on the test
fixtures, `reverse("hello") == "olleh"` and `reverse("12345") == "54321"`. -/
theorem reverse_mirrors (s : CppString) :
    (reverse s).length = s.length ∧
    (∀ i (h : i < s.length),
      (reverse s)[i]? = some (s.get ⟨s.length - 1 - i, by omega⟩)) ∧
    reverse (ascii "hello") = ascii "olleh" ∧
    reverse (ascii "12345") = ascii "54321" := by
  exact ⟨length_reverse_eq s, getElem?_reverse_eq s, by decide, by decide⟩

/-- Witness of C2 on `"hello"`: position `0` of the result holds the last character. -/
theorem reverse_mirrors_witness :
    (0 < (ascii "hello").length) ∧
    (reverse (ascii "hello"))[0]? = some (111 : Byte) :=
  ⟨by decide, (reverse_mirrors (ascii "hello")).2.1 0 (by decide)⟩

/-- C3: `concat(a, b)` is `b` appended after `a`: position `i < length(a)` holds the
character of `a` at `i`, position `length(a) + j` with `j < length(b)` holds the character
of `b` at `j`, and there are no other positions (nothing is trimmed or normalised); on
the test fixtures, `concat("hello", " world") == "hello world"` and
`concat("foo", "bar") == "foobar"`. -/
theorem concat_appends (a b : CppString) :
    (∀ i (h : i < a.length), (concat a b)[i]? = some (a.get ⟨i, h⟩)) ∧
    (∀ j (h : j < b.length), (concat a b)[a.length + j]? = some (b.get ⟨j, h⟩)) ∧
    (concat a b).length = a.length + b.length ∧
    concat (ascii "hello") (ascii " world") = ascii "hello world" ∧
    concat (ascii "foo") (ascii "bar") = ascii "foobar" := by
  refine ⟨?_, ?_, ?_, by decide, by decide⟩
  · intro i h
    simp only [concat, string_plus]
    rw [List.getElem?_append_left h]
    simp
  · intro j h
    simp only [concat, string_plus]
    rw [List.getElem?_append_right (by omega)]
    simp [h]
  · simp [concat, string_plus]

/-- Witness of C3 on `concat("foo", "bar")`: position `1` comes from `"foo"`. -/
theorem concat_appends_witness :
    (1 < (ascii "foo").length) ∧
    (concat (ascii "foo") (ascii "bar"))[1]? = some (111 : Byte) :=
  ⟨by decide, (concat_appends (ascii "foo") (ascii "bar")).1 1 (by decide)⟩

/-- C4: the length of `concat(a, b)` is `length(a) + length(b)`. -/
theorem length_concat (a b : CppString) :
    (concat a b).length = a.length + b.length := by
  simp [concat, string_plus]

/-- C5: the empty string is a two-sided identity of `concat`: `concat(a, "") == a` and
`concat("", b) == b`; on the test fixtures, `concat("test", "") == "test"`,
`concat("", "test") == "test"` and `concat("", "") == ""`. -/
theorem concat_empty_identity :
    (∀ a : CppString, concat a (ascii "") = a) ∧
    (∀ b : CppString, concat (ascii "") b = b) ∧
    concat (ascii "test") (ascii "") = ascii "test" ∧
    concat (ascii "") (ascii "test") = ascii "test" ∧
    concat (ascii "") (ascii "") = ascii "" := by
  refine ⟨?_, ?_, by decide, by decide, by decide⟩
  · intro a
    simp [concat, string_plus, ascii]
  · intro b
    simp [concat, string_plus, ascii]

/-- C6: `reverse(concat(a, b))` equals `concat(reverse(b), reverse(a))`; in the
integration test, `reverse(concat("hello", "world")) == "dlrowolleh"`. -/
theorem reverse_concat (a b : CppString) :
    reverse (concat a b) = concat (reverse b) (reverse a) ∧
    reverse (concat (ascii "hello") (ascii "world")) = ascii "dlrowolleh" := by
  refine ⟨?_, by decide⟩
  rw [reverse_eq_list_reverse, reverse_eq_list_reverse, reverse_eq_list_reverse]
  simp [concat, string_plus]

/-- C7: every string of length at most one is its own reverse: `reverse("") == ""` and
`reverse(c) == c` for every single-character string `c`; on the test fixtures,
`reverse("a") == "a"`. -/
theorem reverse_short :
    (∀ s : CppString, s.length ≤ 1 → reverse s = s) ∧
    reverse (ascii "") = ascii "" ∧
    (∀ c : Byte, reverse [c] = [c]) ∧
    reverse (ascii "a") = ascii "a" := by
  refine ⟨?_, by decide, ?_, by decide⟩
  · intro s hs
    rw [reverse_eq_list_reverse]
    match s, hs with
    | [], _ => rfl
    | [c], _ => rfl
  · intro c
    rw [reverse_eq_list_reverse]
    rfl

/-- Witness of C7 on the one-character string `"a"`. -/
theorem reverse_short_witness :
    (ascii "a").length ≤ 1 ∧ reverse (ascii "a") = ascii "a" :=
  ⟨by decide, reverse_short.1 (ascii "a") (by decide)⟩

/-- C8: `reverse(s) == s` holds for every palindrome `s`, and only for palindromes; on
the test fixtures, `reverse("racecar") == "racecar"`. -/
theorem reverse_eq_self_iff_palindrome :
    (∀ s : CppString, isPalindrome s → reverse s = s) ∧
    (∀ s : CppString, reverse s = s → isPalindrome s) ∧
    reverse (ascii "racecar") = ascii "racecar" := by
  refine ⟨?_, ?_, by decide⟩
  · intro s hp
    apply List.ext_getElem?
    intro j
    by_cases hj : j < s.length
    · rw [getElem?_reverse_eq s j hj, ← hp j hj]
      simp
    · have h1 : (reverse s).length ≤ j := by
        rw [length_reverse_eq]; omega
      rw [List.getElem?_eq_none h1, List.getElem?_eq_none (by omega)]
  · intro s hr i h
    have h1 := getElem?_reverse_eq s i h
    rw [hr] at h1
    have h2 : s[i]? = some (s.get ⟨i, h⟩) := by simp
    rw [h2] at h1
    exact Option.some.inj h1

/-- Witness of C8 on the palindrome `"racecar"` and, for the converse, on a string that
`reverse` leaves unchanged. -/
theorem reverse_eq_self_iff_palindrome_witness :
    isPalindrome (ascii "racecar") ∧ reverse (ascii "racecar") = ascii "racecar" ∧
    reverse (ascii "abba") = ascii "abba" ∧ isPalindrome (ascii "abba") :=
  ⟨by decide, reverse_eq_self_iff_palindrome.1 (ascii "racecar") (by decide),
   by decide, reverse_eq_self_iff_palindrome.2.1 (ascii "abba") (by decide)⟩

/-- C9: the string assertions of the integration test all hold, so the program is not
aborted by them: `concat(hello, world) == "helloworld"`,
`reverse(concat(hello, world)) == "dlrowolleh"` and
`concat(reverse(hello), world) == "ollehworld"`. -/
theorem test_integration_strings_pass :
    test_integration_strings = some () ∧
    concat (ascii "hello") (ascii "world") = ascii "helloworld" ∧
    reverse (concat (ascii "hello") (ascii "world")) = ascii "dlrowolleh" ∧
    concat (reverse (ascii "hello")) (ascii "world") = ascii "ollehworld" := by
  refine ⟨by decide, by decide, by decide, by decide⟩

/-- C10: `add(a, b) == add(b, a)` for all integers `a` and `b`, in particular for all of
the fixed width, under either overflow policy. -/
theorem add_commutative (policy : OverflowPolicy) (a b : Int) :
    add policy a b = add policy b a := by
  unfold add
  rw [Int.add_comm a b]

/-- C11: `multiply(a, b) == multiply(b, a)` for all integers `a` and `b`, in particular
for all of the fixed width, under either overflow policy. -/
theorem multiply_commutative (policy : OverflowPolicy) (a b : Int) :
    multiply policy a b = multiply policy b a := by
  unfold multiply
  rw [Int.mul_comm a b]

/-- C12: for `a` and `b` in the range of a 32-bit `int` whose sum is in that range too,
`add(a, b)` returns exactly `a + b`, under either overflow policy; on the test fixtures,
`add(2, 3) == 5`, `add(-1, 1) == 0`, `add(0, 0) == 0`, `add(100, 200) == 300`,
`add(-5, -10) == -15` and, in the integration test, `add(5, 3) == 8`. -/
theorem add_exact (policy : OverflowPolicy) :
    (∀ a b : Int, INT_MIN ≤ a → a ≤ INT_MAX → INT_MIN ≤ b → b ≤ INT_MAX →
      INT_MIN ≤ a + b → a + b ≤ INT_MAX → add policy a b = some (a + b)) ∧
    add policy 2 3 = some 5 ∧
    add policy (-1) 1 = some 0 ∧
    add policy 0 0 = some 0 ∧
    add policy 100 200 = some 300 ∧
    add policy (-5) (-10) = some (-15) ∧
    add policy 5 3 = some 8 := by
  refine ⟨?_, ?_, ?_, ?_, ?_, ?_, ?_⟩
  · intro a b _ _ _ _ hlo hhi
    have hr : inIntRange (a + b) = true := by simp [inIntRange, hlo, hhi]
    unfold add
    rw [if_pos hr]
  all_goals cases policy <;> decide

/-- Witness of C12 on `add(100, 200)` with trapping overflow. -/
theorem add_exact_witness :
    (INT_MIN ≤ 100 ∧ (100 : Int) ≤ INT_MAX ∧ INT_MIN ≤ 200 ∧ (200 : Int) ≤ INT_MAX ∧
      INT_MIN ≤ 100 + 200 ∧ (100 : Int) + 200 ≤ INT_MAX) ∧
    add .trap 100 200 = some (100 + 200) :=
  ⟨by decide, (add_exact .trap).1 100 200 (by decide) (by decide) (by decide) (by decide)
    (by decide) (by decide)⟩

/-- C13: for `a` and `b` in the range of a 32-bit `int` whose product is in that range
too, `multiply(a, b)` returns exactly `a * b`, under either overflow policy; on the test
fixtures, `multiply(2, 3) == 6`, `multiply(-1, 5) == -5`, `multiply(0, 100) == 0`,
`multiply(10, 10) == 100`, `multiply(-3, -4) == 12` and, in the integration test,
`multiply(2, 4) == 8`. -/
theorem multiply_exact (policy : OverflowPolicy) :
    (∀ a b : Int, INT_MIN ≤ a → a ≤ INT_MAX → INT_MIN ≤ b → b ≤ INT_MAX →
      INT_MIN ≤ a * b → a * b ≤ INT_MAX → multiply policy a b = some (a * b)) ∧
    multiply policy 2 3 = some 6 ∧
    multiply policy (-1) 5 = some (-5) ∧
    multiply policy 0 100 = some 0 ∧
    multiply policy 10 10 = some 100 ∧
    multiply policy (-3) (-4) = some 12 ∧
    multiply policy 2 4 = some 8 := by
  refine ⟨?_, ?_, ?_, ?_, ?_, ?_, ?_⟩
  · intro a b _ _ _ _ hlo hhi
    have hr : inIntRange (a * b) = true := by simp [inIntRange, hlo, hhi]
    unfold multiply
    rw [if_pos hr]
  all_goals cases policy <;> decide

/-- Witness of C13 on `multiply(-3, -4)` with trapping overflow. -/
theorem multiply_exact_witness :
    (INT_MIN ≤ -3 ∧ (-3 : Int) ≤ INT_MAX ∧ INT_MIN ≤ -4 ∧ (-4 : Int) ≤ INT_MAX ∧
      INT_MIN ≤ (-3) * (-4) ∧ (-3 : Int) * (-4) ≤ INT_MAX) ∧
    multiply .trap (-3) (-4) = some ((-3) * (-4)) :=
  ⟨by decide, (multiply_exact .trap).1 (-3) (-4) (by decide) (by decide) (by decide)
    (by decide) (by decide) (by decide)⟩

/-- C14: on a string made only of single-byte ASCII characters, the byte-level reversal
done by `reverse` is the reversal by code point of the bytes read as UTF-8: the string
reads as one code point per byte, and encoding those code points in reverse order gives
`reverse(s)`. -/
theorem reverse_ascii_by_code_point (s : CppString) (h : isAscii s) :
    utf8Decode s = some (s.map (fun b => b.val)) ∧
    reverseByCodePoint s = some (reverse s) := by
  refine ⟨utf8Decode_of_isAscii s h, ?_⟩
  unfold reverseByCodePoint
  rw [utf8Decode_of_isAscii s h, reverse_eq_list_reverse, Option.map_some', ← List.map_reverse,
    utf8Encode_of_isAscii s.reverse (isAscii_list_reverse s h)]

set_option maxRecDepth 8192 in
/-- Witness of C14 on the fixture `"hello"`. -/
theorem reverse_ascii_by_code_point_witness :
    isAscii (ascii "hello") ∧
    reverseByCodePoint (ascii "hello") = some (reverse (ascii "hello")) :=
  ⟨by decide, (reverse_ascii_by_code_point (ascii "hello") (by decide)).2⟩

/-- C15: `reverse` works on bytes, not on code points: the string made of the two-byte
encoding of U+00E9 followed by `"a"` is valid UTF-8 with a multi-byte character, the
bytes of its `reverse` are not the encoding of its code points in reverse order, and they
are not valid UTF-8 at all. -/
theorem reverse_bytes_not_code_points :
    ∃ s : CppString,
      s = utf8Encode [233] ++ ascii "a" ∧
      s = [195, 169, 97] ∧
      utf8Decode s = some [233, 97] ∧
      reverseByCodePoint s = some [97, 195, 169] ∧
      reverse s = [97, 169, 195] ∧
      reverseByCodePoint s ≠ some (reverse s) ∧
      utf8Decode (reverse s) = none := by
  refine ⟨utf8Encode [233] ++ ascii "a", rfl, ?_, ?_, ?_, ?_, ?_, ?_⟩ <;> decide

/-- C16: `concat` is associative: `concat(concat(a, b), c) == concat(a, concat(b, c))`. -/
theorem concat_associative (a b c : CppString) :
    concat (concat a b) c = concat a (concat b c) := by
  simp only [concat, string_plus, List.append_assoc]

end CachedCtest
